import Mathlib

/-
Verification of the Bar Assistant MCP server cache manager and query-parser
argument merge.  The definitions below are a shallow embedding of the
TypeScript source: the two JS Map collections become insertion-ordered
association lists (JS Map preserves insertion order, updates in place, and
appends new keys), the wall clock becomes an explicit natural-number
argument threaded through each operation, and the floating-point eviction
score accessCount / (Date.now() - timestamp) becomes the exact rational of
the same expression (the theorems about eviction assume every entry has a
strictly positive age, the regime the specification itself singles out, in
which the rational and floating orderings agree for realistic magnitudes).
Array.prototype.sort with the comparator scoreA - scoreB is a stable
ascending sort, modelled by List.insertionSort, which is stable for a total
preorder.
-/

namespace BarAssistant

/-- Cache entry exactly as in the source: payload, creation time, access count. -/
structure CacheEntry (V : Type) where
  data : V
  timestamp : Nat
  accessCount : Nat
deriving Repr, DecidableEq

/-- A cache collection: an insertion-ordered association list modelling a JS Map. -/
abbrev Cache (K V : Type) : Type := List (K × CacheEntry V)

/-- Map.get: the entry stored under a key, if any. -/
def mapGet {K V : Type} [DecidableEq K] (c : Cache K V) (k : K) : Option (CacheEntry V) :=
  (c.find? fun p => decide (p.1 = k)).map Prod.snd

/-- Map.has: whether a key is present. -/
def mapMem {K V : Type} [DecidableEq K] (c : Cache K V) (k : K) : Bool :=
  c.any fun p => decide (p.1 = k)

/-- Map.set: update in place when the key is present (keeping its position),
otherwise append at the end. -/
def mapSet {K V : Type} [DecidableEq K] (c : Cache K V) (k : K) (e : CacheEntry V) :
    Cache K V :=
  if mapMem c k then c.map fun p => if p.1 = k then (k, e) else p
  else c ++ [(k, e)]

/-- Map.delete: remove the entry stored under a key. -/
def mapDelete {K V : Type} [DecidableEq K] (c : Cache K V) (k : K) : Cache K V :=
  c.filter fun p => decide (p.1 ≠ k)

/-- Eviction score of an entry: accessCount / (now - timestamp), as an exact
rational (division by a zero age yields 0 in Lean; the eviction theorems
assume positive ages). -/
def score {V : Type} (now : Nat) (e : CacheEntry V) : ℚ :=
  (e.accessCount : ℚ) / ((now : ℚ) - (e.timestamp : ℚ))

/-- Comparator used by the eviction sort: ascending by score. -/
def scoreLE {K V : Type} (now : Nat) (a b : K × CacheEntry V) : Prop :=
  score now a.2 ≤ score now b.2

instance {K V : Type} {now : Nat} : DecidableRel (@scoreLE K V now) :=
  fun a b => inferInstanceAs (Decidable (score now a.2 ≤ score now b.2))

instance {K V : Type} {now : Nat} : IsTotal (K × CacheEntry V) (@scoreLE K V now) :=
  ⟨fun a b => le_total (score now a.2) (score now b.2)⟩

instance {K V : Type} {now : Nat} : IsTrans (K × CacheEntry V) (@scoreLE K V now) :=
  ⟨fun _ _ _ hab hbc => le_trans hab hbc⟩

/-- CacheManager.evictIfNeeded: when the collection is at or past capacity,
sort the entries ascending by score (stably, as Array.prototype.sort does)
and delete the keys of the first floor(maxSize * 0.25) of them. -/
def evictIfNeeded {K V : Type} [DecidableEq K] (maxSize now : Nat) (c : Cache K V) :
    Cache K V :=
  if maxSize ≤ c.length then
    let sorted := c.insertionSort (scoreLE now)
    let toRemove := maxSize / 4
    ((sorted.take toRemove).map Prod.fst).foldl mapDelete c
  else c

/-- The cache manager state: the two collections plus the two configured
constants. -/
structure CacheManager (R S : Type) where
  recipeCache : Cache Nat R
  searchCache : Cache String S
  cacheExpiry : Nat
  maxCacheSize : Nat

/-- JS falsy-or on an optional numeric option: undefined and 0 both fall back
to the default. -/
def orDefault (o : Option Nat) (d : Nat) : Nat :=
  match o with
  | some n => if n = 0 then d else n
  | none => d

/-- The constructor: options.ttl || 5 * 60 * 1000 and options.maxSize || 1000. -/
def mkCacheManager (R S : Type) (ttl maxSize : Option Nat) : CacheManager R S :=
  ⟨[], [], orDefault ttl (5 * 60 * 1000), orDefault maxSize 1000⟩

/-- CacheManager.isValid: Date.now() - entry.timestamp < cacheExpiry, with the
subtraction over the integers as in JS. -/
def isValid {V : Type} (expiry now : Nat) (e : CacheEntry V) : Bool :=
  decide ((now : Int) - (e.timestamp : Int) < (expiry : Int))

/-- CacheManager.getCachedRecipe: on a fresh hit increment accessCount in place
and return the data; on a stale hit delete the entry; otherwise a miss. -/
def getCachedRecipe {R S : Type} (m : CacheManager R S) (now id : Nat) :
    Option R × CacheManager R S :=
  match mapGet m.recipeCache id with
  | some e =>
    if isValid m.cacheExpiry now e then
      (some e.data,
        { m with recipeCache := mapSet m.recipeCache id { e with accessCount := e.accessCount + 1 } })
    else
      (none, { m with recipeCache := mapDelete m.recipeCache id })
  | none => (none, m)

/-- CacheManager.setCachedRecipe: run the eviction check, then store a fresh
entry with timestamp now and accessCount 1. -/
def setCachedRecipe {R S : Type} (m : CacheManager R S) (now id : Nat) (v : R) :
    CacheManager R S :=
  { m with recipeCache := mapSet (evictIfNeeded m.maxCacheSize now m.recipeCache) id ⟨v, now, 1⟩ }

/-- CacheManager.getCachedSearch: same shape as getCachedRecipe on the search
collection. -/
def getCachedSearch {R S : Type} (m : CacheManager R S) (now : Nat) (q : String) :
    Option S × CacheManager R S :=
  match mapGet m.searchCache q with
  | some e =>
    if isValid m.cacheExpiry now e then
      (some e.data,
        { m with searchCache := mapSet m.searchCache q { e with accessCount := e.accessCount + 1 } })
    else
      (none, { m with searchCache := mapDelete m.searchCache q })
  | none => (none, m)

/-- CacheManager.setCachedSearch: same shape as setCachedRecipe on the search
collection. -/
def setCachedSearch {R S : Type} (m : CacheManager R S) (now : Nat) (q : String) (v : S) :
    CacheManager R S :=
  { m with searchCache := mapSet (evictIfNeeded m.maxCacheSize now m.searchCache) q ⟨v, now, 1⟩ }

/-- The record returned by CacheManager.getStats. -/
structure CacheStats where
  recipeCacheSize : Nat
  searchCacheSize : Nat
  recipeCacheHits : Nat
  searchCacheHits : Nat
deriving Repr, DecidableEq

/-- CacheManager.getStats: sizes and summed access counts of both collections. -/
def getStats {R S : Type} (m : CacheManager R S) : CacheStats :=
  ⟨m.recipeCache.length, m.searchCache.length,
    (m.recipeCache.map fun p => p.2.accessCount).sum,
    (m.searchCache.map fun p => p.2.accessCount).sum⟩

/-- CacheManager.clear: unconditionally empty both collections. -/
def clear {R S : Type} (m : CacheManager R S) : CacheManager R S :=
  { m with recipeCache := [], searchCache := [] }

/-- One external operation on the cache manager, with its wall-clock instant. -/
inductive CacheOp (R S : Type) where
  | getRecipe (now id : Nat)
  | setRecipe (now id : Nat) (v : R)
  | getSearch (now : Nat) (q : String)
  | setSearch (now : Nat) (q : String) (v : S)
  | clearAll

/-- Apply one operation to the state, discarding the returned value. -/
def applyOp {R S : Type} (m : CacheManager R S) : CacheOp R S → CacheManager R S
  | .getRecipe now id => (getCachedRecipe m now id).2
  | .setRecipe now id v => setCachedRecipe m now id v
  | .getSearch now q => (getCachedSearch m now q).2
  | .setSearch now q v => setCachedSearch m now q v
  | .clearAll => clear m

/-- Run a sequence of operations from a starting state. -/
def runOps {R S : Type} (m : CacheManager R S) (ops : List (CacheOp R S)) :
    CacheManager R S :=
  ops.foldl applyOp m

/-- The keys of a collection are pairwise distinct (a structural invariant of
a JS Map, preserved by every operation here). -/
def keysNodup {K V : Type} (c : Cache K V) : Prop :=
  (c.map Prod.fst).Nodup

instance {K V : Type} [DecidableEq K] (c : Cache K V) : Decidable (keysNodup c) :=
  inferInstanceAs (Decidable (c.map Prod.fst).Nodup)

/-- The reachable-state invariant: both collections have pairwise-distinct keys
and are within the configured capacity. -/
def managerInv {R S : Type} (m : CacheManager R S) : Prop :=
  keysNodup m.recipeCache ∧ keysNodup m.searchCache ∧
  m.recipeCache.length ≤ m.maxCacheSize ∧ m.searchCache.length ≤ m.maxCacheSize

/-- Does the operation write the recipe collection under the given id? -/
def setsRecipeKey {R S : Type} (id : Nat) : CacheOp R S → Prop
  | .setRecipe _ j _ => j = id
  | _ => False

/-- Does the operation write the search collection under the given query key? -/
def setsSearchKey {R S : Type} (q : String) : CacheOp R S → Prop
  | .setSearch _ r _ => r = q
  | _ => False

instance {R S : Type} (id : Nat) (op : CacheOp R S) : Decidable (setsRecipeKey id op) := by
  unfold setsRecipeKey
  cases op <;> infer_instance

instance {R S : Type} (q : String) (op : CacheOp R S) : Decidable (setsSearchKey q op) := by
  unfold setsSearchKey
  cases op <;> infer_instance

/-- The source ParsedQuery record: the optional single-valued facets and the
three list-valued facets produced by QueryParser.parse. -/
structure ParsedQuery where
  strength : Option String
  flavors : List String
  spirit : Option String
  glass : Option String
  excludes : List String
  ingredients : List String
  method : Option String
  difficulty : Option String
  mood : Option String
  occasion : Option String
deriving Repr, DecidableEq

/-- The fields of the search-arguments object that enhanceSearchArgs reads or
writes; an absent field is none. -/
structure SearchArgs where
  preferred_strength : Option String
  preferred_flavors : Option (List String)
  must_include : Option (List String)
  must_exclude : Option (List String)
  glass_type : Option String
  preparation_method : Option String
deriving Repr, DecidableEq

/-- JS truthiness of a possibly-absent string: undefined and the empty string
are falsy. -/
def strTruthy (o : Option String) : Bool :=
  match o with
  | some s => decide (s ≠ "")
  | none => false

/-- JS truthiness of a possibly-absent array: every array, even an empty one,
is truthy. -/
def listTruthy (o : Option (List String)) : Bool :=
  match o with
  | some _ => true
  | none => false

/-- QueryParser.enhanceSearchArgs: start from a copy of args; each scalar facet
is written only when the parsed value is truthy and the caller field is
falsy; ingredients and excludes are appended after any caller-supplied
must_include and must_exclude lists. -/
def enhanceSearchArgs (args : SearchArgs) (parsedQuery : ParsedQuery) : SearchArgs :=
  { preferred_strength :=
      if strTruthy parsedQuery.strength && !(strTruthy args.preferred_strength) then
        parsedQuery.strength
      else args.preferred_strength,
    preferred_flavors :=
      if decide (0 < parsedQuery.flavors.length) && !(listTruthy args.preferred_flavors) then
        some parsedQuery.flavors
      else args.preferred_flavors,
    must_include :=
      if decide (0 < parsedQuery.ingredients.length) then
        some (args.must_include.getD [] ++ parsedQuery.ingredients)
      else args.must_include,
    must_exclude :=
      if decide (0 < parsedQuery.excludes.length) then
        some (args.must_exclude.getD [] ++ parsedQuery.excludes)
      else args.must_exclude,
    glass_type :=
      if strTruthy parsedQuery.glass && !(strTruthy args.glass_type) then
        parsedQuery.glass
      else args.glass_type,
    preparation_method :=
      if strTruthy parsedQuery.method && !(strTruthy args.preparation_method) then
        parsedQuery.method
      else args.preparation_method }

theorem mapMem_eq_false_iff {K V : Type} [DecidableEq K] (c : Cache K V) (k : K) :
    mapMem c k = false ↔ ∀ p ∈ c, p.1 ≠ k := by
  simp [mapMem]

theorem find?_map_replace {K V : Type} [DecidableEq K] (c : Cache K V) (k : K)
    (e : CacheEntry V) :
    (c.map fun p => if p.1 = k then (k, e) else p).find? (fun p => decide (p.1 = k)) =
      if mapMem c k then some (k, e) else none := by
  induction c with
  | nil => simp [mapMem]
  | cons p c ih =>
    by_cases hp : p.1 = k
    · simp [mapMem, List.find?, hp]
    · simp only [mapMem, List.map_cons, List.find?, List.any_cons, hp, if_neg,
        decide_eq_true_eq, decide_False, Bool.false_or] at ih ⊢
      simpa [hp] using ih

theorem mapGet_mapSet_self {K V : Type} [DecidableEq K] (c : Cache K V) (k : K)
    (e : CacheEntry V) :
    mapGet (mapSet c k e) k = some e := by
  unfold mapGet mapSet
  by_cases h : mapMem c k
  · rw [if_pos h, find?_map_replace, if_pos h]
    rfl
  · have hnone : c.find? (fun p => decide (p.1 = k)) = none := by
      rw [List.find?_eq_none]
      intro x hx
      simpa using (mapMem_eq_false_iff c k).1 (by simpa using h) x hx
    rw [if_neg h, List.find?_append, hnone]
    simp [List.find?]

theorem find?_map_replace_ne {K V : Type} [DecidableEq K] (c : Cache K V) (k j : K)
    (e : CacheEntry V) (hjk : j ≠ k) :
    (c.map fun p => if p.1 = k then (k, e) else p).find? (fun p => decide (p.1 = j)) =
      c.find? (fun p => decide (p.1 = j)) := by
  induction c with
  | nil => simp
  | cons p c ih =>
    by_cases hp : p.1 = k
    · have hpj : ¬ p.1 = j := by rw [hp]; exact fun hh => hjk hh.symm
      rw [List.map_cons, if_pos hp,
        List.find?_cons_of_neg _ (by simpa using Ne.symm hjk),
        List.find?_cons_of_neg _ (by simpa using hpj)]
      exact ih
    · rw [List.map_cons, if_neg hp]
      by_cases hpj : p.1 = j
      · rw [List.find?_cons_of_pos _ (by simpa using hpj),
          List.find?_cons_of_pos _ (by simpa using hpj)]
      · rw [List.find?_cons_of_neg _ (by simpa using hpj),
          List.find?_cons_of_neg _ (by simpa using hpj)]
        exact ih

theorem mapGet_mapSet_ne {K V : Type} [DecidableEq K] (c : Cache K V) (k j : K)
    (e : CacheEntry V) (hjk : j ≠ k) :
    mapGet (mapSet c k e) j = mapGet c j := by
  unfold mapGet mapSet
  by_cases h : mapMem c k
  · rw [if_pos h, find?_map_replace_ne c k j e hjk]
  · rw [if_neg h, List.find?_append]
    have : List.find? (fun p => decide (p.1 = j)) [(k, e)] = none := by
      simp [List.find?, Ne.symm hjk]
    rw [this, Option.or_none]

theorem mapGet_mapDelete_self {K V : Type} [DecidableEq K] (c : Cache K V) (k : K) :
    mapGet (mapDelete c k) k = none := by
  unfold mapGet mapDelete
  rw [Option.map_eq_none', List.find?_eq_none]
  intro p hp
  have := List.of_mem_filter hp
  simpa using this

theorem mapGet_mapDelete_ne {K V : Type} [DecidableEq K] (c : Cache K V) (k j : K)
    (hjk : j ≠ k) :
    mapGet (mapDelete c k) j = mapGet c j := by
  unfold mapGet mapDelete
  induction c with
  | nil => simp
  | cons p c ih =>
    by_cases hp : p.1 = k
    · have hpj : ¬ p.1 = j := by rw [hp]; exact fun hh => hjk hh.symm
      rw [List.filter_cons, if_neg (by simpa using hp),
        List.find?_cons_of_neg _ (by simpa using hpj)]
      exact ih
    · rw [List.filter_cons, if_pos (by simpa using hp)]
      by_cases hpj : p.1 = j
      · rw [List.find?_cons_of_pos _ (by simpa using hpj),
          List.find?_cons_of_pos _ (by simpa using hpj)]
      · rw [List.find?_cons_of_neg _ (by simpa using hpj),
          List.find?_cons_of_neg _ (by simpa using hpj)]
        exact ih

theorem length_mapSet {K V : Type} [DecidableEq K] (c : Cache K V) (k : K)
    (e : CacheEntry V) :
    (mapSet c k e).length = if mapMem c k then c.length else c.length + 1 := by
  unfold mapSet
  by_cases h : mapMem c k <;> simp [h]

theorem mapGet_isSome_of_mapMem {K V : Type} [DecidableEq K] (c : Cache K V) (k : K)
    (h : mapMem c k = true) : ∃ e, mapGet c k = some e := by
  unfold mapMem at h
  rw [List.any_eq_true] at h
  obtain ⟨p, hp, hpk⟩ := h
  have hsome : (c.find? fun p => decide (p.1 = k)).isSome := by
    rw [List.find?_isSome]
    exact ⟨p, hp, hpk⟩
  obtain ⟨q, hq⟩ := Option.isSome_iff_exists.1 hsome
  exact ⟨q.2, by simp [mapGet, hq]⟩

theorem mapMem_of_mapGet {K V : Type} [DecidableEq K] (c : Cache K V) (k : K)
    (e : CacheEntry V) (h : mapGet c k = some e) : mapMem c k = true := by
  unfold mapGet at h
  rw [Option.map_eq_some'] at h
  obtain ⟨p, hp, _⟩ := h
  have hmem := List.mem_of_find?_eq_some hp
  have hpk := List.find?_some hp
  unfold mapMem
  rw [List.any_eq_true]
  exact ⟨p, hmem, hpk⟩

theorem keysNodup_mapSet {K V : Type} [DecidableEq K] (c : Cache K V) (k : K)
    (e : CacheEntry V) (h : keysNodup c) : keysNodup (mapSet c k e) := by
  unfold keysNodup mapSet
  by_cases hm : mapMem c k
  · rw [if_pos hm, List.map_map]
    have : (Prod.fst ∘ fun p : K × CacheEntry V => if p.1 = k then (k, e) else p) =
        Prod.fst := by
      funext p
      by_cases hp : p.1 = k <;> simp [hp]
    rw [this]
    exact h
  · rw [if_neg hm, List.map_append]
    simp only [List.map_cons, List.map_nil]
    rw [List.nodup_append]
    refine ⟨h, List.nodup_singleton k, ?_⟩
    intro a ha hb
    have hak : a = k := by simpa using hb
    obtain ⟨p, hp, hpa⟩ := List.mem_map.1 ha
    exact (mapMem_eq_false_iff c k).1 (by simpa using hm) p hp (by rw [hpa, hak])

theorem keysNodup_mapDelete {K V : Type} [DecidableEq K] (c : Cache K V) (k : K)
    (h : keysNodup c) : keysNodup (mapDelete c k) := by
  unfold keysNodup mapDelete
  exact ((List.filter_sublist c).map Prod.fst).nodup h

theorem foldl_mapDelete_eq_filter {K V : Type} [DecidableEq K] (ks : List K)
    (c : Cache K V) :
    ks.foldl mapDelete c = c.filter fun p => decide (p.1 ∉ ks) := by
  induction ks generalizing c with
  | nil => simp
  | cons k ks ih =>
    simp only [List.foldl_cons]
    rw [ih]
    unfold mapDelete
    rw [List.filter_filter]
    congr 1
    funext p
    by_cases h1 : p.1 = k <;> by_cases h2 : p.1 ∈ ks <;> simp [h1, h2]

theorem mapGet_eq_none_iff {K V : Type} [DecidableEq K] (c : Cache K V) (k : K) :
    mapGet c k = none ↔ ∀ p ∈ c, p.1 ≠ k := by
  unfold mapGet
  rw [Option.map_eq_none', List.find?_eq_none]
  simp

theorem evictIfNeeded_of_lt {K V : Type} [DecidableEq K] (maxSize now : Nat)
    (c : Cache K V) (h : c.length < maxSize) : evictIfNeeded maxSize now c = c := by
  unfold evictIfNeeded
  rw [if_neg (by omega)]

theorem evictIfNeeded_eq_filter {K V : Type} [DecidableEq K] (maxSize now : Nat)
    (c : Cache K V) (h : maxSize ≤ c.length) :
    evictIfNeeded maxSize now c =
      c.filter fun p =>
        decide (p.1 ∉ ((c.insertionSort (scoreLE now)).take (maxSize / 4)).map Prod.fst) := by
  unfold evictIfNeeded
  rw [if_pos h]
  exact foldl_mapDelete_eq_filter _ c

theorem keysNodup_insertionSort {K V : Type} [DecidableEq K] (now : Nat) (c : Cache K V)
    (h : keysNodup c) : keysNodup (c.insertionSort (scoreLE now)) := by
  unfold keysNodup at h ⊢
  exact ((List.perm_insertionSort (scoreLE now) c).map Prod.fst).nodup_iff.mpr h

theorem evict_perm {K V : Type} [DecidableEq K] (maxSize now : Nat) (c : Cache K V)
    (hnodup : keysNodup c) (hfull : maxSize ≤ c.length) :
    (evictIfNeeded maxSize now c).Perm
      ((c.insertionSort (scoreLE now)).drop (maxSize / 4)) := by
  set s := c.insertionSort (scoreLE now) with hs
  set t := maxSize / 4 with ht
  set q : K × CacheEntry V → Bool := fun p => decide (p.1 ∉ (s.take t).map Prod.fst) with hq
  rw [evictIfNeeded_eq_filter maxSize now c hfull]
  have hcs : c.Perm s := (List.perm_insertionSort (scoreLE now) c).symm
  have hfilter : (c.filter q).Perm (s.filter q) := hcs.filter q
  have hsplit : s.filter q = (s.take t).filter q ++ (s.drop t).filter q := by
    conv_lhs => rw [← List.take_append_drop t s]
    rw [List.filter_append]
  have hkeys : ((s.take t).map Prod.fst ++ (s.drop t).map Prod.fst).Nodup := by
    have hn := keysNodup_insertionSort now c hnodup
    unfold keysNodup at hn
    rw [← List.map_append, List.take_append_drop, hs]
    exact hn
  have htake : (s.take t).filter q = [] := by
    rw [List.filter_eq_nil_iff]
    intro p hp
    simp only [hq, decide_eq_true_eq, Decidable.not_not, not_not]
    exact List.mem_map_of_mem Prod.fst hp
  have hdrop : (s.drop t).filter q = s.drop t := by
    rw [List.filter_eq_self]
    intro p hp
    simp only [hq, decide_eq_true_eq]
    intro hmem
    rw [List.nodup_append] at hkeys
    exact hkeys.2.2 hmem (List.mem_map_of_mem Prod.fst hp)
  rw [hsplit, htake, List.nil_append, hdrop] at hfilter
  exact hfilter

theorem length_evict {K V : Type} [DecidableEq K] (maxSize now : Nat) (c : Cache K V)
    (hnodup : keysNodup c) (hfull : maxSize ≤ c.length) :
    (evictIfNeeded maxSize now c).length = c.length - maxSize / 4 := by
  rw [(evict_perm maxSize now c hnodup hfull).length_eq, List.length_drop,
    List.length_insertionSort]

theorem evict_scores_ge {K V : Type} [DecidableEq K] (maxSize now : Nat) (c : Cache K V)
    (hnodup : keysNodup c) (hfull : maxSize ≤ c.length)
    (p : K × CacheEntry V) (hp : p ∈ (c.insertionSort (scoreLE now)).take (maxSize / 4))
    (q' : K × CacheEntry V) (hq : q' ∈ evictIfNeeded maxSize now c) :
    score now p.2 ≤ score now q'.2 := by
  have hsorted : List.Pairwise (scoreLE now) (c.insertionSort (scoreLE now)) :=
    List.sorted_insertionSort (scoreLE now) c
  have hq' : q' ∈ (c.insertionSort (scoreLE now)).drop (maxSize / 4) :=
    (evict_perm maxSize now c hnodup hfull).mem_iff.mp hq
  rw [← List.take_append_drop (maxSize / 4) (c.insertionSort (scoreLE now))] at hsorted
  exact (List.pairwise_append.1 hsorted).2.2 p hp q' hq'

theorem mapGet_evict_removed {K V : Type} [DecidableEq K] (maxSize now : Nat)
    (c : Cache K V) (hfull : maxSize ≤ c.length) (k : K)
    (hk : k ∈ ((c.insertionSort (scoreLE now)).take (maxSize / 4)).map Prod.fst) :
    mapGet (evictIfNeeded maxSize now c) k = none := by
  rw [evictIfNeeded_eq_filter maxSize now c hfull, mapGet_eq_none_iff]
  intro p hp
  have hmem := List.of_mem_filter hp
  simp only [decide_eq_true_eq] at hmem
  intro hpk
  exact hmem (hpk ▸ hk)

theorem keysNodup_evictIfNeeded {K V : Type} [DecidableEq K] (maxSize now : Nat)
    (c : Cache K V) (h : keysNodup c) : keysNodup (evictIfNeeded maxSize now c) := by
  by_cases hf : maxSize ≤ c.length
  · rw [evictIfNeeded_eq_filter maxSize now c hf]
    unfold keysNodup
    exact ((List.filter_sublist c).map Prod.fst).nodup h
  · rw [evictIfNeeded_of_lt maxSize now c (by omega)]
    exact h

theorem mapGet_evictIfNeeded_none {K V : Type} [DecidableEq K] (maxSize now : Nat)
    (c : Cache K V) (k : K) (h : mapGet c k = none) :
    mapGet (evictIfNeeded maxSize now c) k = none := by
  by_cases hf : maxSize ≤ c.length
  · rw [evictIfNeeded_eq_filter maxSize now c hf]
    rw [mapGet_eq_none_iff] at h ⊢
    intro p hp
    exact h p (List.mem_of_mem_filter hp)
  · rw [evictIfNeeded_of_lt maxSize now c (by omega)]
    exact h

theorem length_mapDelete_of_mem {K V : Type} [DecidableEq K] (c : Cache K V) (k : K)
    (e : CacheEntry V) (hnodup : keysNodup c) (h : mapGet c k = some e) :
    (mapDelete c k).length + 1 = c.length := by
  induction c with
  | nil => simp [mapGet] at h
  | cons p c ih =>
    unfold keysNodup at hnodup
    rw [List.map_cons, List.nodup_cons] at hnodup
    by_cases hp : p.1 = k
    · unfold mapDelete
      rw [List.filter_cons, if_neg (by simpa using hp)]
      have hall : c.filter (fun p => decide (p.1 ≠ k)) = c := by
        rw [List.filter_eq_self]
        intro q hq
        simp only [decide_eq_true_eq]
        intro hqk
        refine absurd ?_ hnodup.1
        rw [hp, ← hqk]
        exact List.mem_map_of_mem Prod.fst hq
      unfold mapDelete at hall
      rw [hall]
      simp
    · have hget : mapGet c k = some e := by
        unfold mapGet at h ⊢
        rwa [List.find?_cons_of_neg _ (by simpa using hp)] at h
      have := ih hnodup.2 hget
      unfold mapDelete at this ⊢
      rw [List.filter_cons, if_pos (by simpa using hp)]
      simpa using this

theorem getCachedRecipe_absent {R S : Type} (m : CacheManager R S) (now id : Nat)
    (h : mapGet m.recipeCache id = none) : getCachedRecipe m now id = (none, m) := by
  unfold getCachedRecipe
  rw [h]

theorem getCachedRecipe_fresh {R S : Type} (m : CacheManager R S) (now id : Nat)
    (e : CacheEntry R) (h : mapGet m.recipeCache id = some e)
    (hv : isValid m.cacheExpiry now e = true) :
    getCachedRecipe m now id =
      (some e.data,
        { m with recipeCache :=
            mapSet m.recipeCache id ⟨e.data, e.timestamp, e.accessCount + 1⟩ }) := by
  unfold getCachedRecipe
  rw [h]
  simp [hv]

theorem getCachedRecipe_stale {R S : Type} (m : CacheManager R S) (now id : Nat)
    (e : CacheEntry R) (h : mapGet m.recipeCache id = some e)
    (hv : isValid m.cacheExpiry now e = false) :
    getCachedRecipe m now id = (none, { m with recipeCache := mapDelete m.recipeCache id }) := by
  unfold getCachedRecipe
  rw [h]
  simp [hv]

theorem getCachedSearch_absent {R S : Type} (m : CacheManager R S) (now : Nat) (q : String)
    (h : mapGet m.searchCache q = none) : getCachedSearch m now q = (none, m) := by
  unfold getCachedSearch
  rw [h]

theorem getCachedSearch_fresh {R S : Type} (m : CacheManager R S) (now : Nat) (q : String)
    (e : CacheEntry S) (h : mapGet m.searchCache q = some e)
    (hv : isValid m.cacheExpiry now e = true) :
    getCachedSearch m now q =
      (some e.data,
        { m with searchCache :=
            mapSet m.searchCache q ⟨e.data, e.timestamp, e.accessCount + 1⟩ }) := by
  unfold getCachedSearch
  rw [h]
  simp [hv]

theorem getCachedSearch_stale {R S : Type} (m : CacheManager R S) (now : Nat) (q : String)
    (e : CacheEntry S) (h : mapGet m.searchCache q = some e)
    (hv : isValid m.cacheExpiry now e = false) :
    getCachedSearch m now q = (none, { m with searchCache := mapDelete m.searchCache q }) := by
  unfold getCachedSearch
  rw [h]
  simp [hv]

theorem getCachedRecipe_state {R S : Type} (m : CacheManager R S) (now id : Nat) :
    (getCachedRecipe m now id).2 = m ∨
    (∃ e, mapGet m.recipeCache id = some e ∧
      (getCachedRecipe m now id).2 =
        { m with recipeCache :=
            mapSet m.recipeCache id ⟨e.data, e.timestamp, e.accessCount + 1⟩ }) ∨
    (getCachedRecipe m now id).2 = { m with recipeCache := mapDelete m.recipeCache id } := by
  cases h : mapGet m.recipeCache id with
  | none => exact Or.inl (by rw [getCachedRecipe_absent m now id h])
  | some e =>
    cases hv : isValid m.cacheExpiry now e with
    | true => exact Or.inr (Or.inl ⟨e, rfl, by rw [getCachedRecipe_fresh m now id e h hv]⟩)
    | false => exact Or.inr (Or.inr (by rw [getCachedRecipe_stale m now id e h hv]))

theorem getCachedSearch_state {R S : Type} (m : CacheManager R S) (now : Nat) (q : String) :
    (getCachedSearch m now q).2 = m ∨
    (∃ e, mapGet m.searchCache q = some e ∧
      (getCachedSearch m now q).2 =
        { m with searchCache :=
            mapSet m.searchCache q ⟨e.data, e.timestamp, e.accessCount + 1⟩ }) ∨
    (getCachedSearch m now q).2 = { m with searchCache := mapDelete m.searchCache q } := by
  cases h : mapGet m.searchCache q with
  | none => exact Or.inl (by rw [getCachedSearch_absent m now q h])
  | some e =>
    cases hv : isValid m.cacheExpiry now e with
    | true => exact Or.inr (Or.inl ⟨e, rfl, by rw [getCachedSearch_fresh m now q e h hv]⟩)
    | false => exact Or.inr (Or.inr (by rw [getCachedSearch_stale m now q e h hv]))

theorem applyOp_maxCacheSize {R S : Type} (m : CacheManager R S) (op : CacheOp R S) :
    (applyOp m op).maxCacheSize = m.maxCacheSize := by
  cases op with
  | getRecipe now id =>
    rcases getCachedRecipe_state m now id with h | ⟨e, _, h⟩ | h <;> rw [applyOp, h]
  | setRecipe now id v => rfl
  | getSearch now q =>
    rcases getCachedSearch_state m now q with h | ⟨e, _, h⟩ | h <;> rw [applyOp, h]
  | setSearch now q v => rfl
  | clearAll => rfl

theorem length_mapSet_le {K V : Type} [DecidableEq K] (c : Cache K V) (k : K)
    (e : CacheEntry V) : (mapSet c k e).length ≤ c.length + 1 := by
  rw [length_mapSet]
  by_cases h : mapMem c k <;> simp [h]

theorem length_evictIfNeeded_set_le {K V : Type} [DecidableEq K] (maxSize now : Nat)
    (c : Cache K V) (k : K) (e : CacheEntry V) (hnodup : keysNodup c)
    (h4 : 4 ≤ maxSize) (hlen : c.length ≤ maxSize) :
    (mapSet (evictIfNeeded maxSize now c) k e).length ≤ maxSize := by
  by_cases hf : maxSize ≤ c.length
  · have h1 := length_evict maxSize now c hnodup hf
    have h2 := length_mapSet_le (evictIfNeeded maxSize now c) k e
    have ht : 1 ≤ maxSize / 4 := by omega
    omega
  · rw [evictIfNeeded_of_lt maxSize now c (by omega)]
    have h2 := length_mapSet_le c k e
    omega

theorem inv_applyOp {R S : Type} (m : CacheManager R S) (op : CacheOp R S)
    (h4 : 4 ≤ m.maxCacheSize) (hinv : managerInv m) : managerInv (applyOp m op) := by
  obtain ⟨hn1, hn2, hl1, hl2⟩ := hinv
  cases op with
  | getRecipe now id =>
    rcases getCachedRecipe_state m now id with h | ⟨e, he, h⟩ | h
    · rw [applyOp, h]; exact ⟨hn1, hn2, hl1, hl2⟩
    · rw [applyOp, h]
      refine ⟨keysNodup_mapSet _ _ _ hn1, hn2, ?_, hl2⟩
      have hm := mapMem_of_mapGet _ _ _ he
      rw [length_mapSet, if_pos hm]
      exact hl1
    · rw [applyOp, h]
      refine ⟨keysNodup_mapDelete _ _ hn1, hn2, ?_, hl2⟩
      calc (mapDelete m.recipeCache id).length
          ≤ m.recipeCache.length := List.length_filter_le _ _
        _ ≤ m.maxCacheSize := hl1
  | setRecipe now id v =>
    refine ⟨keysNodup_mapSet _ _ _ (keysNodup_evictIfNeeded _ _ _ hn1), hn2, ?_, hl2⟩
    exact length_evictIfNeeded_set_le _ _ _ _ _ hn1 h4 hl1
  | getSearch now q =>
    rcases getCachedSearch_state m now q with h | ⟨e, he, h⟩ | h
    · rw [applyOp, h]; exact ⟨hn1, hn2, hl1, hl2⟩
    · rw [applyOp, h]
      refine ⟨hn1, keysNodup_mapSet _ _ _ hn2, hl1, ?_⟩
      have hm := mapMem_of_mapGet _ _ _ he
      rw [length_mapSet, if_pos hm]
      exact hl2
    · rw [applyOp, h]
      refine ⟨hn1, keysNodup_mapDelete _ _ hn2, hl1, ?_⟩
      calc (mapDelete m.searchCache q).length
          ≤ m.searchCache.length := List.length_filter_le _ _
        _ ≤ m.maxCacheSize := hl2
  | setSearch now q v =>
    refine ⟨hn1, keysNodup_mapSet _ _ _ (keysNodup_evictIfNeeded _ _ _ hn2), hl1, ?_⟩
    exact length_evictIfNeeded_set_le _ _ _ _ _ hn2 h4 hl2
  | clearAll =>
    exact ⟨List.nodup_nil, List.nodup_nil, Nat.zero_le _, Nat.zero_le _⟩

theorem managerInv_runOps {R S : Type} (m : CacheManager R S) (ops : List (CacheOp R S))
    (h4 : 4 ≤ m.maxCacheSize) (hinv : managerInv m) : managerInv (runOps m ops) := by
  induction ops generalizing m with
  | nil => exact hinv
  | cons op ops ih =>
    have h4' : 4 ≤ (applyOp m op).maxCacheSize := by rw [applyOp_maxCacheSize]; exact h4
    exact ih (applyOp m op) h4' (inv_applyOp m op h4 hinv)

theorem mapGet_recipe_none_applyOp {R S : Type} (m : CacheManager R S) (op : CacheOp R S)
    (id : Nat) (hop : ¬ setsRecipeKey id op) (h : mapGet m.recipeCache id = none) :
    mapGet (applyOp m op).recipeCache id = none := by
  cases op with
  | getRecipe now j =>
    rcases getCachedRecipe_state m now j with h' | ⟨e, he, h'⟩ | h'
    · rw [applyOp, h']; exact h
    · have hij : id ≠ j := by
        intro hh
        rw [hh, he] at h
        cases h
      rw [applyOp, h', mapGet_mapSet_ne _ _ _ _ hij]
      exact h
    · rw [applyOp, h']
      by_cases hij : id = j
      · rw [hij]
        exact mapGet_mapDelete_self _ _
      · rw [mapGet_mapDelete_ne _ _ _ hij]
        exact h
  | setRecipe now j v =>
    have hij : id ≠ j := fun hh => hop (by rw [setsRecipeKey]; exact hh.symm)
    rw [applyOp, setCachedRecipe]
    rw [mapGet_mapSet_ne _ _ _ _ hij]
    exact mapGet_evictIfNeeded_none _ _ _ _ h
  | getSearch now q =>
    rcases getCachedSearch_state m now q with h' | ⟨e, he, h'⟩ | h' <;> rw [applyOp, h'] <;>
      exact h
  | setSearch now q v => exact h
  | clearAll => rfl

theorem mapGet_search_none_applyOp {R S : Type} (m : CacheManager R S) (op : CacheOp R S)
    (q : String) (hop : ¬ setsSearchKey q op) (h : mapGet m.searchCache q = none) :
    mapGet (applyOp m op).searchCache q = none := by
  cases op with
  | getSearch now r =>
    rcases getCachedSearch_state m now r with h' | ⟨e, he, h'⟩ | h'
    · rw [applyOp, h']; exact h
    · have hij : q ≠ r := by
        intro hh
        rw [hh, he] at h
        cases h
      rw [applyOp, h', mapGet_mapSet_ne _ _ _ _ hij]
      exact h
    · rw [applyOp, h']
      by_cases hij : q = r
      · rw [hij]
        exact mapGet_mapDelete_self _ _
      · rw [mapGet_mapDelete_ne _ _ _ hij]
        exact h
  | setSearch now r v =>
    have hij : q ≠ r := fun hh => hop (by rw [setsSearchKey]; exact hh.symm)
    rw [applyOp, setCachedSearch]
    rw [mapGet_mapSet_ne _ _ _ _ hij]
    exact mapGet_evictIfNeeded_none _ _ _ _ h
  | getRecipe now j =>
    rcases getCachedRecipe_state m now j with h' | ⟨e, he, h'⟩ | h' <;> rw [applyOp, h'] <;>
      exact h
  | setRecipe now j v => exact h
  | clearAll => rfl

theorem mapGet_recipe_none_runOps {R S : Type} (m : CacheManager R S)
    (ops : List (CacheOp R S)) (id : Nat) (hop : ∀ op ∈ ops, ¬ setsRecipeKey id op)
    (h : mapGet m.recipeCache id = none) :
    mapGet (runOps m ops).recipeCache id = none := by
  induction ops generalizing m with
  | nil => exact h
  | cons op ops ih =>
    exact ih (applyOp m op) (fun o ho => hop o (List.mem_cons_of_mem op ho))
      (mapGet_recipe_none_applyOp m op id (hop op (List.mem_cons_self op ops)) h)

theorem mapGet_search_none_runOps {R S : Type} (m : CacheManager R S)
    (ops : List (CacheOp R S)) (q : String) (hop : ∀ op ∈ ops, ¬ setsSearchKey q op)
    (h : mapGet m.searchCache q = none) :
    mapGet (runOps m ops).searchCache q = none := by
  induction ops generalizing m with
  | nil => exact h
  | cons op ops ih =>
    exact ih (applyOp m op) (fun o ho => hop o (List.mem_cons_of_mem op ho))
      (mapGet_search_none_applyOp m op q (hop op (List.mem_cons_self op ops)) h)

theorem orDefault_pos (o : Option Nat) (d : Nat) (hd : 0 < d) : 0 < orDefault o d := by
  cases o with
  | none => exact hd
  | some n =>
    show 0 < if n = 0 then d else n
    by_cases hn : n = 0
    · rw [if_pos hn]; exact hd
    · rw [if_neg hn]; omega

/-- Claim C10: constructing the cache manager with an explicit ttl of 0 or an
explicit maxSize of 0 yields the default values (300000 ms expiry, 1000
entries), because the options are combined with a JS falsy-or; consequently no
configuration produces a zero TTL or a zero-capacity cache. -/
theorem zero_options_fall_back_to_defaults :
    (mkCacheManager Nat Nat (some 0) (some 0)).cacheExpiry = 300000 ∧
    (mkCacheManager Nat Nat (some 0) (some 0)).maxCacheSize = 1000 ∧
    (mkCacheManager Nat Nat none none).cacheExpiry = 5 * 60 * 1000 ∧
    (mkCacheManager Nat Nat none none).maxCacheSize = 1000 ∧
    ∀ ttl ms : Option Nat,
      0 < (mkCacheManager Nat Nat ttl ms).cacheExpiry ∧
      0 < (mkCacheManager Nat Nat ttl ms).maxCacheSize := by
  refine ⟨rfl, rfl, rfl, rfl, fun ttl ms => ⟨?_, ?_⟩⟩
  · exact orDefault_pos ttl (5 * 60 * 1000) (by omega)
  · exact orDefault_pos ms 1000 (by omega)

/-- Claim C9: when a collection holds fewer than maxSize entries at the moment set is
called, the eviction check removes nothing: the new collection is exactly the
old one updated at the written key, and every other key is untouched, whether
the written key is new or an overwrite. -/
theorem below_capacity_set_evicts_nothing {R S : Type} (m : CacheManager R S) (now : Nat)
    (hr : m.recipeCache.length < m.maxCacheSize)
    (hs : m.searchCache.length < m.maxCacheSize) :
    (∀ id v, (setCachedRecipe m now id v).recipeCache = mapSet m.recipeCache id ⟨v, now, 1⟩ ∧
      ∀ j, j ≠ id →
        mapGet (setCachedRecipe m now id v).recipeCache j = mapGet m.recipeCache j) ∧
    (∀ q v, (setCachedSearch m now q v).searchCache = mapSet m.searchCache q ⟨v, now, 1⟩ ∧
      ∀ r, r ≠ q →
        mapGet (setCachedSearch m now q v).searchCache r = mapGet m.searchCache r) := by
  constructor
  · intro id v
    have he := evictIfNeeded_of_lt m.maxCacheSize now m.recipeCache hr
    refine ⟨by rw [setCachedRecipe, he], fun j hj => ?_⟩
    rw [setCachedRecipe]
    simp only
    rw [he, mapGet_mapSet_ne _ _ _ _ hj]
  · intro q v
    have he := evictIfNeeded_of_lt m.maxCacheSize now m.searchCache hs
    refine ⟨by rw [setCachedSearch, he], fun r hrq => ?_⟩
    rw [setCachedSearch]
    simp only
    rw [he, mapGet_mapSet_ne _ _ _ _ hrq]

/-- Claim C9 witness: on an empty default manager with one prior entry, a set below
capacity leaves the untouched key unchanged. -/
theorem below_capacity_set_evicts_nothing_witness :
    (mkCacheManager Nat Nat none none).recipeCache.length <
      (mkCacheManager Nat Nat none none).maxCacheSize ∧
    (mkCacheManager Nat Nat none none).searchCache.length <
      (mkCacheManager Nat Nat none none).maxCacheSize ∧
    (setCachedRecipe (mkCacheManager Nat Nat none none) 0 5 7).recipeCache =
      mapSet (mkCacheManager Nat Nat none none).recipeCache 5 ⟨7, 0, 1⟩ ∧
    mapGet (setCachedRecipe (mkCacheManager Nat Nat none none) 0 5 7).recipeCache 3 =
      mapGet (mkCacheManager Nat Nat none none).recipeCache 3 := by
  refine ⟨by decide, by decide, ?_, ?_⟩
  · exact ((below_capacity_set_evicts_nothing (mkCacheManager Nat Nat none none) 0
      (by decide) (by decide)).1 5 7).1
  · exact ((below_capacity_set_evicts_nothing (mkCacheManager Nat Nat none none) 0
      (by decide) (by decide)).1 5 7).2 3 (by decide)

/-- Claim C7: setting a key that already has a live entry replaces it with a fresh
entry whose timestamp is the current time and whose accessCount is 1; the
prior access history is discarded. -/
theorem set_overwrites_with_fresh_entry {R S : Type} (m : CacheManager R S) (now : Nat) :
    (∀ id v e, mapGet m.recipeCache id = some e → isValid m.cacheExpiry now e = true →
      mapGet (setCachedRecipe m now id v).recipeCache id = some ⟨v, now, 1⟩) ∧
    (∀ q v e, mapGet m.searchCache q = some e → isValid m.cacheExpiry now e = true →
      mapGet (setCachedSearch m now q v).searchCache q = some ⟨v, now, 1⟩) := by
  constructor
  · intro id v e _ _
    rw [setCachedRecipe]
    exact mapGet_mapSet_self _ _ _
  · intro q v e _ _
    rw [setCachedSearch]
    exact mapGet_mapSet_self _ _ _

/-- Claim C7 witness: overwriting live entries in both collections yields fresh
entries with accessCount 1. -/
theorem set_overwrites_with_fresh_entry_witness :
    mapGet (setCachedSearch (setCachedRecipe (mkCacheManager Nat Nat none none) 0 5 7)
        0 "q" 9).recipeCache 5 = some ⟨7, 0, 1⟩ ∧
    isValid (setCachedSearch (setCachedRecipe (mkCacheManager Nat Nat none none) 0 5 7)
        0 "q" 9).cacheExpiry 1 ⟨7, 0, 1⟩ = true ∧
    mapGet (setCachedRecipe (setCachedSearch (setCachedRecipe
        (mkCacheManager Nat Nat none none) 0 5 7) 0 "q" 9) 1 5 8).recipeCache 5 =
      some ⟨8, 1, 1⟩ ∧
    mapGet (setCachedSearch (setCachedSearch (setCachedRecipe
        (mkCacheManager Nat Nat none none) 0 5 7) 0 "q" 9) 1 "q" 10).searchCache "q" =
      some ⟨10, 1, 1⟩ := by
  refine ⟨by decide, by decide, ?_, ?_⟩
  · exact (set_overwrites_with_fresh_entry (setCachedSearch (setCachedRecipe
      (mkCacheManager Nat Nat none none) 0 5 7) 0 "q" 9) 1).1 5 8 ⟨7, 0, 1⟩
      (by decide) (by decide)
  · exact (set_overwrites_with_fresh_entry (setCachedSearch (setCachedRecipe
      (mkCacheManager Nat Nat none none) 0 5 7) 0 "q" 9) 1).2 "q" 10 ⟨9, 0, 1⟩
      (by decide) (by decide)

/-- Claim C8: every operation is a total function by construction, and a get on a
key that no operation of the run ever wrote returns absent and leaves the
state unchanged. -/
theorem get_total_and_absent_for_never_inserted {R S : Type} (ttl ms : Option Nat)
    (ops : List (CacheOp R S)) (now : Nat) :
    (∀ id, (∀ op ∈ ops, ¬ setsRecipeKey id op) →
      getCachedRecipe (runOps (mkCacheManager R S ttl ms) ops) now id =
        (none, runOps (mkCacheManager R S ttl ms) ops)) ∧
    (∀ q, (∀ op ∈ ops, ¬ setsSearchKey q op) →
      getCachedSearch (runOps (mkCacheManager R S ttl ms) ops) now q =
        (none, runOps (mkCacheManager R S ttl ms) ops)) := by
  constructor
  · intro id hop
    exact getCachedRecipe_absent _ now id
      (mapGet_recipe_none_runOps (mkCacheManager R S ttl ms) ops id hop rfl)
  · intro q hop
    exact getCachedSearch_absent _ now q
      (mapGet_search_none_runOps (mkCacheManager R S ttl ms) ops q hop rfl)

/-- Claim C8 witness: after a run that wrote other keys, reading the never-written
recipe id 5 and search key "y" misses without changing the state. -/
theorem get_total_and_absent_for_never_inserted_witness :
    (∀ op ∈ ([CacheOp.setRecipe 0 1 10, CacheOp.setSearch 1 "x" 20,
        CacheOp.getRecipe 2 5] : List (CacheOp Nat Nat)), ¬ setsRecipeKey 5 op) ∧
    (∀ op ∈ ([CacheOp.setRecipe 0 1 10, CacheOp.setSearch 1 "x" 20,
        CacheOp.getRecipe 2 5] : List (CacheOp Nat Nat)), ¬ setsSearchKey "y" op) ∧
    getCachedRecipe (runOps (mkCacheManager Nat Nat none none)
        [CacheOp.setRecipe 0 1 10, CacheOp.setSearch 1 "x" 20, CacheOp.getRecipe 2 5]) 3 5 =
      (none, runOps (mkCacheManager Nat Nat none none)
        [CacheOp.setRecipe 0 1 10, CacheOp.setSearch 1 "x" 20, CacheOp.getRecipe 2 5]) ∧
    getCachedSearch (runOps (mkCacheManager Nat Nat none none)
        [CacheOp.setRecipe 0 1 10, CacheOp.setSearch 1 "x" 20, CacheOp.getRecipe 2 5]) 3 "y" =
      (none, runOps (mkCacheManager Nat Nat none none)
        [CacheOp.setRecipe 0 1 10, CacheOp.setSearch 1 "x" 20, CacheOp.getRecipe 2 5]) := by
  refine ⟨by decide, by decide, ?_, ?_⟩
  · exact (get_total_and_absent_for_never_inserted none none
      [CacheOp.setRecipe 0 1 10, CacheOp.setSearch 1 "x" 20, CacheOp.getRecipe 2 5] 3).1 5
      (by decide)
  · exact (get_total_and_absent_for_never_inserted none none
      [CacheOp.setRecipe 0 1 10, CacheOp.setSearch 1 "x" 20, CacheOp.getRecipe 2 5] 3).2 "y"
      (by decide)

/-- Claim C1: after set(k, v) the stored entry is the value with accessCount 1; a
get before the TTL elapses returns the value and raises accessCount to 2, and
in general every valid get on a present key returns its data and increments
its accessCount by exactly one. -/
theorem set_then_get_returns_value_and_access_counting {R S : Type}
    (m : CacheManager R S) (now0 now id : Nat) (v : R)
    (hfresh : (now : Int) - (now0 : Int) < (m.cacheExpiry : Int)) :
    mapGet (setCachedRecipe m now0 id v).recipeCache id = some ⟨v, now0, 1⟩ ∧
    (getCachedRecipe (setCachedRecipe m now0 id v) now id).1 = some v ∧
    mapGet (getCachedRecipe (setCachedRecipe m now0 id v) now id).2.recipeCache id =
      some ⟨v, now0, 2⟩ ∧
    ∀ (m' : CacheManager R S) (n id' : Nat) (e : CacheEntry R),
      mapGet m'.recipeCache id' = some e → isValid m'.cacheExpiry n e = true →
      (getCachedRecipe m' n id').1 = some e.data ∧
      mapGet (getCachedRecipe m' n id').2.recipeCache id' =
        some ⟨e.data, e.timestamp, e.accessCount + 1⟩ := by
  have hgen : ∀ (m' : CacheManager R S) (n id' : Nat) (e : CacheEntry R),
      mapGet m'.recipeCache id' = some e → isValid m'.cacheExpiry n e = true →
      (getCachedRecipe m' n id').1 = some e.data ∧
      mapGet (getCachedRecipe m' n id').2.recipeCache id' =
        some ⟨e.data, e.timestamp, e.accessCount + 1⟩ := by
    intro m' n id' e hmem hvalid
    rw [getCachedRecipe_fresh m' n id' e hmem hvalid]
    exact ⟨rfl, mapGet_mapSet_self _ _ _⟩
  have h1 : mapGet (setCachedRecipe m now0 id v).recipeCache id = some ⟨v, now0, 1⟩ := by
    rw [setCachedRecipe]
    exact mapGet_mapSet_self _ _ _
  have hvalid : isValid (setCachedRecipe m now0 id v).cacheExpiry now
      (⟨v, now0, 1⟩ : CacheEntry R) = true := by
    unfold isValid
    exact decide_eq_true hfresh
  obtain ⟨h2, h3⟩ := hgen (setCachedRecipe m now0 id v) now id ⟨v, now0, 1⟩ h1 hvalid
  exact ⟨h1, h2, h3, hgen⟩

/-- Claim C1 witness: on the default manager, set at time 10 then get at time 20
returns the value with accessCount rising from 1 to 2. -/
theorem set_then_get_returns_value_and_access_counting_witness :
    (20 : Int) - (10 : Int) <
      ((mkCacheManager Nat Nat none none).cacheExpiry : Int) ∧
    mapGet (setCachedRecipe (mkCacheManager Nat Nat none none) 10 5 7).recipeCache 5 =
      some ⟨7, 10, 1⟩ ∧
    (getCachedRecipe (setCachedRecipe (mkCacheManager Nat Nat none none) 10 5 7) 20 5).1 =
      some 7 ∧
    mapGet (getCachedRecipe (setCachedRecipe
        (mkCacheManager Nat Nat none none) 10 5 7) 20 5).2.recipeCache 5 =
      some ⟨7, 10, 2⟩ := by
  refine ⟨by decide, ?_, ?_, ?_⟩
  · exact (set_then_get_returns_value_and_access_counting
      (mkCacheManager Nat Nat none none) 10 20 5 7 (by decide)).1
  · exact (set_then_get_returns_value_and_access_counting
      (mkCacheManager Nat Nat none none) 10 20 5 7 (by decide)).2.1
  · exact (set_then_get_returns_value_and_access_counting
      (mkCacheManager Nat Nat none none) 10 20 5 7 (by decide)).2.2.1

/-- Claim C6: a valid get mutates only the accessed entry and only its accessCount:
the data and timestamp survive, every other key of the same collection is
unchanged, and the other collection and both configuration constants are
untouched, in both collections. -/
theorem valid_get_mutates_only_access_count {R S : Type} (m : CacheManager R S)
    (now : Nat) :
    (∀ id e, mapGet m.recipeCache id = some e → isValid m.cacheExpiry now e = true →
      (getCachedRecipe m now id).1 = some e.data ∧
      mapGet (getCachedRecipe m now id).2.recipeCache id =
        some ⟨e.data, e.timestamp, e.accessCount + 1⟩ ∧
      (∀ j, j ≠ id →
        mapGet (getCachedRecipe m now id).2.recipeCache j = mapGet m.recipeCache j) ∧
      (getCachedRecipe m now id).2.searchCache = m.searchCache ∧
      (getCachedRecipe m now id).2.cacheExpiry = m.cacheExpiry ∧
      (getCachedRecipe m now id).2.maxCacheSize = m.maxCacheSize) ∧
    (∀ q e, mapGet m.searchCache q = some e → isValid m.cacheExpiry now e = true →
      (getCachedSearch m now q).1 = some e.data ∧
      mapGet (getCachedSearch m now q).2.searchCache q =
        some ⟨e.data, e.timestamp, e.accessCount + 1⟩ ∧
      (∀ r, r ≠ q →
        mapGet (getCachedSearch m now q).2.searchCache r = mapGet m.searchCache r) ∧
      (getCachedSearch m now q).2.recipeCache = m.recipeCache ∧
      (getCachedSearch m now q).2.cacheExpiry = m.cacheExpiry ∧
      (getCachedSearch m now q).2.maxCacheSize = m.maxCacheSize) := by
  constructor
  · intro id e hmem hvalid
    rw [getCachedRecipe_fresh m now id e hmem hvalid]
    refine ⟨rfl, mapGet_mapSet_self _ _ _, fun j hj => ?_, rfl, rfl, rfl⟩
    exact mapGet_mapSet_ne _ _ _ _ hj
  · intro q e hmem hvalid
    rw [getCachedSearch_fresh m now q e hmem hvalid]
    refine ⟨rfl, mapGet_mapSet_self _ _ _, fun r hrq => ?_, rfl, rfl, rfl⟩
    exact mapGet_mapSet_ne _ _ _ _ hrq

/-- Claim C6 witness: on a manager holding recipe ids 5 and 3 and search key "q", a
valid get of id 5 bumps only that accessCount and leaves key 3, the search
collection, and the configuration untouched. -/
theorem valid_get_mutates_only_access_count_witness :
    mapGet (setCachedSearch (setCachedRecipe (setCachedRecipe
        (mkCacheManager Nat Nat none none) 0 5 7) 1 3 9) 2 "q" 11).recipeCache 5 =
      some ⟨7, 0, 1⟩ ∧
    isValid (setCachedSearch (setCachedRecipe (setCachedRecipe
        (mkCacheManager Nat Nat none none) 0 5 7) 1 3 9) 2 "q" 11).cacheExpiry 4
      (⟨7, 0, 1⟩ : CacheEntry Nat) = true ∧
    (getCachedRecipe (setCachedSearch (setCachedRecipe (setCachedRecipe
        (mkCacheManager Nat Nat none none) 0 5 7) 1 3 9) 2 "q" 11) 4 5).1 = some 7 ∧
    mapGet (getCachedRecipe (setCachedSearch (setCachedRecipe (setCachedRecipe
        (mkCacheManager Nat Nat none none) 0 5 7) 1 3 9) 2 "q" 11) 4 5).2.recipeCache 3 =
      mapGet (setCachedSearch (setCachedRecipe (setCachedRecipe
        (mkCacheManager Nat Nat none none) 0 5 7) 1 3 9) 2 "q" 11).recipeCache 3 ∧
    (getCachedRecipe (setCachedSearch (setCachedRecipe (setCachedRecipe
        (mkCacheManager Nat Nat none none) 0 5 7) 1 3 9) 2 "q" 11) 4 5).2.searchCache =
      (setCachedSearch (setCachedRecipe (setCachedRecipe
        (mkCacheManager Nat Nat none none) 0 5 7) 1 3 9) 2 "q" 11).searchCache := by
  refine ⟨by decide, by decide, ?_, ?_, ?_⟩
  · exact ((valid_get_mutates_only_access_count (setCachedSearch (setCachedRecipe
      (setCachedRecipe (mkCacheManager Nat Nat none none) 0 5 7) 1 3 9) 2 "q" 11) 4).1 5
      ⟨7, 0, 1⟩ (by decide) (by decide)).1
  · exact ((valid_get_mutates_only_access_count (setCachedSearch (setCachedRecipe
      (setCachedRecipe (mkCacheManager Nat Nat none none) 0 5 7) 1 3 9) 2 "q" 11) 4).1 5
      ⟨7, 0, 1⟩ (by decide) (by decide)).2.2.1 3 (by decide)
  · exact ((valid_get_mutates_only_access_count (setCachedSearch (setCachedRecipe
      (setCachedRecipe (mkCacheManager Nat Nat none none) 0 5 7) 1 3 9) 2 "q" 11) 4).1 5
      ⟨7, 0, 1⟩ (by decide) (by decide)).2.2.2.1

/-- Claim C2: a lookup of a present entry at an age strictly below the ttl returns
the stored data and leaves the stats size unchanged; a lookup at an age at or
past the ttl deletes exactly that entry during the lookup (the stats size
drops by one) and returns absent; and a lookup never touches any other key,
so expiry happens only at lookup. -/
theorem lazy_expiry_at_lookup {R S : Type} (m : CacheManager R S) (now id : Nat)
    (e : CacheEntry R) (hmem : mapGet m.recipeCache id = some e)
    (hnodup : keysNodup m.recipeCache) :
    ((now : Int) - (e.timestamp : Int) < (m.cacheExpiry : Int) →
      (getCachedRecipe m now id).1 = some e.data ∧
      (getStats (getCachedRecipe m now id).2).recipeCacheSize =
        (getStats m).recipeCacheSize) ∧
    ((m.cacheExpiry : Int) ≤ (now : Int) - (e.timestamp : Int) →
      (getCachedRecipe m now id).1 = none ∧
      mapGet (getCachedRecipe m now id).2.recipeCache id = none ∧
      (getStats (getCachedRecipe m now id).2).recipeCacheSize + 1 =
        (getStats m).recipeCacheSize) ∧
    ∀ j, j ≠ id → mapGet (getCachedRecipe m now id).2.recipeCache j = mapGet m.recipeCache j := by
  refine ⟨?_, ?_, ?_⟩
  · intro hage
    have hvalid : isValid m.cacheExpiry now e = true := by
      unfold isValid
      exact decide_eq_true hage
    rw [getCachedRecipe_fresh m now id e hmem hvalid]
    refine ⟨rfl, ?_⟩
    show (mapSet m.recipeCache id _).length = m.recipeCache.length
    rw [length_mapSet, if_pos (mapMem_of_mapGet _ _ _ hmem)]
  · intro hage
    have hvalid : isValid m.cacheExpiry now e = false := by
      unfold isValid
      rw [decide_eq_false_iff_not]
      omega
    rw [getCachedRecipe_stale m now id e hmem hvalid]
    refine ⟨rfl, mapGet_mapDelete_self _ _, ?_⟩
    show (mapDelete m.recipeCache id).length + 1 = m.recipeCache.length
    exact length_mapDelete_of_mem m.recipeCache id e hnodup hmem
  · intro j hj
    cases hv : isValid m.cacheExpiry now e with
    | true =>
      rw [getCachedRecipe_fresh m now id e hmem hv]
      exact mapGet_mapSet_ne _ _ _ _ hj
    | false =>
      rw [getCachedRecipe_stale m now id e hmem hv]
      exact mapGet_mapDelete_ne _ _ _ hj

/-- Claim C2 witness: with ttl 100 and one entry stored at time 0, a read at time 50
hits without shrinking the collection and a read at time 200 misses, removes
the entry, and shrinks the stats size by one, while a read never touches
another key. -/
theorem lazy_expiry_at_lookup_witness :
    mapGet (setCachedRecipe (mkCacheManager Nat Nat (some 100) none) 0 5 7).recipeCache 5 =
      some ⟨7, 0, 1⟩ ∧
    keysNodup (setCachedRecipe (mkCacheManager Nat Nat (some 100) none) 0 5 7).recipeCache ∧
    (50 : Int) - (0 : Int) <
      ((setCachedRecipe (mkCacheManager Nat Nat (some 100) none) 0 5 7).cacheExpiry : Int) ∧
    (getCachedRecipe (setCachedRecipe (mkCacheManager Nat Nat (some 100) none) 0 5 7)
        50 5).1 = some 7 ∧
    ((setCachedRecipe (mkCacheManager Nat Nat (some 100) none) 0 5 7).cacheExpiry : Int) ≤
      (200 : Int) - (0 : Int) ∧
    (getCachedRecipe (setCachedRecipe (mkCacheManager Nat Nat (some 100) none) 0 5 7)
        200 5).1 = none ∧
    (getStats (getCachedRecipe (setCachedRecipe (mkCacheManager Nat Nat (some 100) none)
        0 5 7) 200 5).2).recipeCacheSize + 1 =
      (getStats (setCachedRecipe (mkCacheManager Nat Nat (some 100) none)
        0 5 7)).recipeCacheSize ∧
    mapGet (getCachedRecipe (setCachedRecipe (mkCacheManager Nat Nat (some 100) none)
        0 5 7) 200 5).2.recipeCache 3 =
      mapGet (setCachedRecipe (mkCacheManager Nat Nat (some 100) none) 0 5 7).recipeCache 3 := by
  refine ⟨by decide, by decide, by decide, ?_, by decide, ?_, ?_, ?_⟩
  · exact ((lazy_expiry_at_lookup (setCachedRecipe (mkCacheManager Nat Nat (some 100) none)
      0 5 7) 50 5 ⟨7, 0, 1⟩ (by decide) (by decide)).1 (by decide)).1
  · exact ((lazy_expiry_at_lookup (setCachedRecipe (mkCacheManager Nat Nat (some 100) none)
      0 5 7) 200 5 ⟨7, 0, 1⟩ (by decide) (by decide)).2.1 (by decide)).1
  · exact ((lazy_expiry_at_lookup (setCachedRecipe (mkCacheManager Nat Nat (some 100) none)
      0 5 7) 200 5 ⟨7, 0, 1⟩ (by decide) (by decide)).2.1 (by decide)).2.2
  · exact (lazy_expiry_at_lookup (setCachedRecipe (mkCacheManager Nat Nat (some 100) none)
      0 5 7) 200 5 ⟨7, 0, 1⟩ (by decide) (by decide)).2.2 3 (by decide)

/-- Claim C3: when set runs on a collection at or past capacity, exactly
floor(maxSize / 4) entries are removed before the insertion: the survivors are
a permutation of the ascending-by-score order with its first floor(maxSize / 4)
entries cut, those removed keys no longer resolve, every removed entry scores
no higher than every survivor, and only then is the fresh entry stored. -/
theorem eviction_removes_lowest_quarter {R S : Type} (m : CacheManager R S)
    (now id : Nat) (v : R) (hnodup : keysNodup m.recipeCache)
    (hfull : m.maxCacheSize ≤ m.recipeCache.length)
    (_hages : ∀ p ∈ m.recipeCache, p.2.timestamp < now) :
    (evictIfNeeded m.maxCacheSize now m.recipeCache).length =
      m.recipeCache.length - m.maxCacheSize / 4 ∧
    (evictIfNeeded m.maxCacheSize now m.recipeCache).Perm
      ((m.recipeCache.insertionSort (scoreLE now)).drop (m.maxCacheSize / 4)) ∧
    (∀ p ∈ (m.recipeCache.insertionSort (scoreLE now)).take (m.maxCacheSize / 4),
      mapGet (evictIfNeeded m.maxCacheSize now m.recipeCache) p.1 = none) ∧
    (∀ p ∈ (m.recipeCache.insertionSort (scoreLE now)).take (m.maxCacheSize / 4),
      ∀ q ∈ evictIfNeeded m.maxCacheSize now m.recipeCache,
        score now p.2 ≤ score now q.2) ∧
    (setCachedRecipe m now id v).recipeCache =
      mapSet (evictIfNeeded m.maxCacheSize now m.recipeCache) id ⟨v, now, 1⟩ := by
  refine ⟨length_evict _ _ _ hnodup hfull, evict_perm _ _ _ hnodup hfull, ?_, ?_, rfl⟩
  · intro p hp
    exact mapGet_evict_removed _ _ _ hfull p.1 (List.mem_map_of_mem Prod.fst hp)
  · intro p hp q hq
    exact evict_scores_ge _ _ _ hnodup hfull p hp q hq

/-- Claim C3 witness: a capacity-4 collection holding four entries with positive
ages loses exactly one entry during the next set. -/
theorem eviction_removes_lowest_quarter_witness :
    keysNodup (runOps (mkCacheManager Nat Nat none (some 4))
      [CacheOp.setRecipe 1 1 10, CacheOp.setRecipe 2 2 20,
       CacheOp.setRecipe 3 3 30, CacheOp.setRecipe 4 4 40]).recipeCache ∧
    (runOps (mkCacheManager Nat Nat none (some 4))
      [CacheOp.setRecipe 1 1 10, CacheOp.setRecipe 2 2 20,
       CacheOp.setRecipe 3 3 30, CacheOp.setRecipe 4 4 40]).maxCacheSize ≤
      (runOps (mkCacheManager Nat Nat none (some 4))
        [CacheOp.setRecipe 1 1 10, CacheOp.setRecipe 2 2 20,
         CacheOp.setRecipe 3 3 30, CacheOp.setRecipe 4 4 40]).recipeCache.length ∧
    (∀ p ∈ (runOps (mkCacheManager Nat Nat none (some 4))
      [CacheOp.setRecipe 1 1 10, CacheOp.setRecipe 2 2 20,
       CacheOp.setRecipe 3 3 30, CacheOp.setRecipe 4 4 40]).recipeCache,
      p.2.timestamp < 10) ∧
    (evictIfNeeded (runOps (mkCacheManager Nat Nat none (some 4))
        [CacheOp.setRecipe 1 1 10, CacheOp.setRecipe 2 2 20,
         CacheOp.setRecipe 3 3 30, CacheOp.setRecipe 4 4 40]).maxCacheSize 10
      (runOps (mkCacheManager Nat Nat none (some 4))
        [CacheOp.setRecipe 1 1 10, CacheOp.setRecipe 2 2 20,
         CacheOp.setRecipe 3 3 30, CacheOp.setRecipe 4 4 40]).recipeCache).length =
      (runOps (mkCacheManager Nat Nat none (some 4))
        [CacheOp.setRecipe 1 1 10, CacheOp.setRecipe 2 2 20,
         CacheOp.setRecipe 3 3 30, CacheOp.setRecipe 4 4 40]).recipeCache.length -
        (runOps (mkCacheManager Nat Nat none (some 4))
          [CacheOp.setRecipe 1 1 10, CacheOp.setRecipe 2 2 20,
           CacheOp.setRecipe 3 3 30, CacheOp.setRecipe 4 4 40]).maxCacheSize / 4 := by
  refine ⟨by decide, by decide, by decide, ?_⟩
  exact (eviction_removes_lowest_quarter (runOps (mkCacheManager Nat Nat none (some 4))
    [CacheOp.setRecipe 1 1 10, CacheOp.setRecipe 2 2 20,
     CacheOp.setRecipe 3 3 30, CacheOp.setRecipe 4 4 40]) 10 9 99
    (by decide) (by decide) (by decide)).1

/-- Claim C4 counterexample: with maxSize 2 the eviction batch is floor(2 / 4) = 0,
so the third set leaves three entries in a collection whose capacity is 2 —
the bound is violated after an operation completes. -/
theorem size_bound_counterexample :
    (runOps (mkCacheManager Nat Nat none (some 2))
      [CacheOp.setRecipe 0 1 10, CacheOp.setRecipe 1 2 20,
       CacheOp.setRecipe 2 3 30]).maxCacheSize = 2 ∧
    (runOps (mkCacheManager Nat Nat none (some 2))
      [CacheOp.setRecipe 0 1 10, CacheOp.setRecipe 1 2 20,
       CacheOp.setRecipe 2 3 30]).recipeCache.length = 3 := by
  exact ⟨by decide, by decide⟩

/-- Claim C4 amended: whenever the effective maxSize (after the falsy-or defaulting)
is at least 4 — so the eviction batch is nonempty — every sequence of
operations from a fresh manager keeps both collections within maxSize; for
maxSize 1, 2 or 3 the batch floor(maxSize / 4) is 0 and the bound can be
exceeded. -/
theorem size_bound_amended {R S : Type} (ttl ms : Option Nat)
    (ops : List (CacheOp R S)) (h4 : 4 ≤ orDefault ms 1000) :
    (runOps (mkCacheManager R S ttl ms) ops).recipeCache.length ≤
      (runOps (mkCacheManager R S ttl ms) ops).maxCacheSize ∧
    (runOps (mkCacheManager R S ttl ms) ops).searchCache.length ≤
      (runOps (mkCacheManager R S ttl ms) ops).maxCacheSize := by
  have hinv := managerInv_runOps (mkCacheManager R S ttl ms) ops h4
    ⟨List.nodup_nil, List.nodup_nil, Nat.zero_le _, Nat.zero_le _⟩
  exact ⟨hinv.2.2.1, hinv.2.2.2⟩

/-- Claim C4 amended witness: with maxSize 4 a run of six sets stays within the
bound. -/
theorem size_bound_amended_witness :
    4 ≤ orDefault (some 4) 1000 ∧
    (runOps (mkCacheManager Nat Nat none (some 4))
      [CacheOp.setRecipe 1 1 10, CacheOp.setRecipe 2 2 20, CacheOp.setRecipe 3 3 30,
       CacheOp.setRecipe 4 4 40, CacheOp.setRecipe 5 5 50,
       CacheOp.setRecipe 6 6 60]).recipeCache.length ≤
      (runOps (mkCacheManager Nat Nat none (some 4))
        [CacheOp.setRecipe 1 1 10, CacheOp.setRecipe 2 2 20, CacheOp.setRecipe 3 3 30,
         CacheOp.setRecipe 4 4 40, CacheOp.setRecipe 5 5 50,
         CacheOp.setRecipe 6 6 60]).maxCacheSize := by
  refine ⟨by decide, ?_⟩
  exact (size_bound_amended none (some 4)
    [CacheOp.setRecipe 1 1 10, CacheOp.setRecipe 2 2 20, CacheOp.setRecipe 3 3 30,
     CacheOp.setRecipe 4 4 40, CacheOp.setRecipe 5 5 50, CacheOp.setRecipe 6 6 60]
    (by decide)).1

/-- Claim C5 counterexample: the caller supplied must_include, yet the parsed
ingredients are still merged into the field, so a parsed facet value is
applied to an output field the caller already supplied. -/
theorem merge_precedence_counterexample :
    (enhanceSearchArgs ⟨none, none, some ["vodka"], none, none, none⟩
        ⟨none, [], none, none, [], ["campari"], none, none, none, none⟩).must_include =
      some ["vodka", "campari"] ∧
    (⟨none, none, some ["vodka"], none, none, none⟩ : SearchArgs).must_include =
      some ["vodka"] ∧
    some ["vodka", "campari"] ≠ (some ["vodka"] : Option (List String)) := by
  exact ⟨rfl, rfl, by decide⟩

/-- Claim C5 amended: for the four scalar facets (preferred_strength,
preferred_flavors, glass_type, preparation_method) a truthy caller-supplied
value is never overwritten; must_include and must_exclude instead keep the
caller entries as a prefix and append the parsed entries after them; and the
concrete strength example yields the explicit value. -/
theorem merge_precedence_amended (args : SearchArgs) (pq : ParsedQuery) :
    (strTruthy args.preferred_strength = true →
      (enhanceSearchArgs args pq).preferred_strength = args.preferred_strength) ∧
    (listTruthy args.preferred_flavors = true →
      (enhanceSearchArgs args pq).preferred_flavors = args.preferred_flavors) ∧
    (strTruthy args.glass_type = true →
      (enhanceSearchArgs args pq).glass_type = args.glass_type) ∧
    (strTruthy args.preparation_method = true →
      (enhanceSearchArgs args pq).preparation_method = args.preparation_method) ∧
    (∀ l, args.must_include = some l →
      (enhanceSearchArgs args pq).must_include = some (l ++ pq.ingredients)) ∧
    (∀ l, args.must_exclude = some l →
      (enhanceSearchArgs args pq).must_exclude = some (l ++ pq.excludes)) ∧
    (enhanceSearchArgs ⟨some "strong", none, none, none, none, none⟩
        ⟨some "light", [], none, none, [], [], none, none, none, none⟩).preferred_strength =
      some "strong" := by
  refine ⟨?_, ?_, ?_, ?_, ?_, ?_, by decide⟩
  · intro hstr
    show (if strTruthy pq.strength && !(strTruthy args.preferred_strength) then
      pq.strength else args.preferred_strength) = args.preferred_strength
    rw [hstr]
    simp
  · intro hfl
    show (if decide (0 < pq.flavors.length) && !(listTruthy args.preferred_flavors) then
      some pq.flavors else args.preferred_flavors) = args.preferred_flavors
    rw [hfl]
    simp
  · intro hgl
    show (if strTruthy pq.glass && !(strTruthy args.glass_type) then
      pq.glass else args.glass_type) = args.glass_type
    rw [hgl]
    simp
  · intro hpm
    show (if strTruthy pq.method && !(strTruthy args.preparation_method) then
      pq.method else args.preparation_method) = args.preparation_method
    rw [hpm]
    simp
  · intro l hl
    show (if decide (0 < pq.ingredients.length) then
      some (args.must_include.getD [] ++ pq.ingredients) else args.must_include) =
        some (l ++ pq.ingredients)
    by_cases hi : 0 < pq.ingredients.length
    · rw [if_pos (by simpa using hi), hl]
      rfl
    · rw [if_neg (by simpa using hi), hl]
      have : pq.ingredients = [] := List.length_eq_zero.mp (by omega)
      rw [this, List.append_nil]
  · intro l hl
    show (if decide (0 < pq.excludes.length) then
      some (args.must_exclude.getD [] ++ pq.excludes) else args.must_exclude) =
        some (l ++ pq.excludes)
    by_cases hi : 0 < pq.excludes.length
    · rw [if_pos (by simpa using hi), hl]
      rfl
    · rw [if_neg (by simpa using hi), hl]
      have : pq.excludes = [] := List.length_eq_zero.mp (by omega)
      rw [this, List.append_nil]

/-- Claim C5 amended witness: with every caller field supplied and truthy, the four
scalar fields survive the merge and the parsed list entries are appended after
the caller entries. -/
theorem merge_precedence_amended_witness :
    strTruthy (⟨some "strong", some ["sweet"], some ["vodka"], some ["mint"],
      some "coupe", some "shake"⟩ : SearchArgs).preferred_strength = true ∧
    (enhanceSearchArgs ⟨some "strong", some ["sweet"], some ["vodka"], some ["mint"],
        some "coupe", some "shake"⟩
      ⟨some "light", ["bitter"], none, some "rocks", ["lime"], ["campari"],
        some "stir", none, none, none⟩).preferred_strength = some "strong" ∧
    (enhanceSearchArgs ⟨some "strong", some ["sweet"], some ["vodka"], some ["mint"],
        some "coupe", some "shake"⟩
      ⟨some "light", ["bitter"], none, some "rocks", ["lime"], ["campari"],
        some "stir", none, none, none⟩).must_include =
      some (["vodka"] ++ ["campari"]) ∧
    (enhanceSearchArgs ⟨some "strong", some ["sweet"], some ["vodka"], some ["mint"],
        some "coupe", some "shake"⟩
      ⟨some "light", ["bitter"], none, some "rocks", ["lime"], ["campari"],
        some "stir", none, none, none⟩).must_exclude =
      some (["mint"] ++ ["lime"]) := by
  refine ⟨by decide, ?_, ?_, ?_⟩
  · exact (merge_precedence_amended ⟨some "strong", some ["sweet"], some ["vodka"],
      some ["mint"], some "coupe", some "shake"⟩
      ⟨some "light", ["bitter"], none, some "rocks", ["lime"], ["campari"],
        some "stir", none, none, none⟩).1 (by decide)
  · exact (merge_precedence_amended ⟨some "strong", some ["sweet"], some ["vodka"],
      some ["mint"], some "coupe", some "shake"⟩
      ⟨some "light", ["bitter"], none, some "rocks", ["lime"], ["campari"],
        some "stir", none, none, none⟩).2.2.2.2.1 ["vodka"] rfl
  · exact (merge_precedence_amended ⟨some "strong", some ["sweet"], some ["vodka"],
      some ["mint"], some "coupe", some "shake"⟩
      ⟨some "light", ["bitter"], none, some "rocks", ["lime"], ["campari"],
        some "stir", none, none, none⟩).2.2.2.2.2.1 ["mint"] rfl

end BarAssistant
